import Mathlib

/-!
Shallow embedding of `src/mikan-os/apps/rpn_cpp/rpn.cpp`, a postfix (RPN)
arithmetic evaluator over command-line tokens.

Modelling conventions:
* A C string (token) is a `List Nat` of character codes; the terminating NUL
  is the end of the list (C strings cannot contain an interior NUL).
* C `long` is modelled as unbounded `Int` (signed overflow is undefined
  behaviour in the source, so no wrap-around is modelled for `long`).
* The globals `long stack[100]` and `int stack_ptr` form a `CState`:
  a 100-cell `List Int` (zero-initialised, as C globals are) plus an `Int`
  stack pointer starting at `-1`.
* Any array access `stack[i]` with `i` outside `0..99` is undefined
  behaviour in C; the embedding makes it observable by returning `none`.
  A `some` result means the run performed only in-bounds accesses.
* `static_cast<int>` on the x86-64 target truncates a 64-bit `long` to a
  32-bit two's-complement `int`; modelled by `toInt32`.
-/

/-- Character codes of the operator token `"+"`. -/
def plusTok : List Nat := [43]

/-- Character codes of the operator token `"-"`. -/
def minusTok : List Nat := [45]

/-- Embedding of `strcmp` from rpn.cpp: walk both strings while both are
nonzero; on the first difference return `a[i] - b[i]`, and after the loop
return `a[i] - b[i]` where a missing character reads as the NUL 0. -/
def strcmp : List Nat → List Nat → Int
  | [], [] => 0
  | [], b :: _ => 0 - (b : Int)
  | a :: _, [] => (a : Int) - 0
  | a :: as, b :: bs => if a = b then strcmp as bs else (a : Int) - (b : Int)

/-- Embedding of `atol` from rpn.cpp: `v = v * 10 + s[i] - '0'` over the
characters in order, starting from 0, with no validation whatsoever. -/
def atol (s : List Nat) : Int :=
  s.foldl (fun (v : Int) (c : Nat) => v * 10 + (c : Int) - 48) 0

/-- The evaluator state: the globals `int stack_ptr` and `long stack[100]`. -/
structure CState where
  sp : Int
  mem : List Int
deriving DecidableEq

/-- Reading `stack[i]`: in bounds, the stored value; out of bounds,
undefined behaviour, flagged as `none`. -/
def readCell (m : List Int) (i : Int) : Option Int :=
  if 0 ≤ i ∧ i < 100 then some (m.getD i.toNat 0) else none

/-- Writing `stack[i] = v`: in bounds, the updated array; out of bounds,
undefined behaviour, flagged as `none`. -/
def writeCell (m : List Int) (i : Int) (v : Int) : Option (List Int) :=
  if 0 ≤ i ∧ i < 100 then some (m.set i.toNat v) else none

/-- Embedding of `Pop`: `return stack[stack_ptr--];`. -/
def Pop (s : CState) : Option (Int × CState) :=
  (readCell s.mem s.sp).map fun v => (v, ⟨s.sp - 1, s.mem⟩)

/-- Embedding of `Push`: `stack[++stack_ptr] = value;`. -/
def Push (v : Int) (s : CState) : Option CState :=
  (writeCell s.mem (s.sp + 1) v).map fun m => ⟨s.sp + 1, m⟩

/-- The state at the top of `main`: `stack_ptr = -1` and the zero-initialised
global array. -/
def initState : CState := ⟨-1, List.replicate 100 0⟩

/-- One iteration of the loop in `main`: classify the token by `strcmp`
against `"+"` and `"-"`; operators pop `b` then `a` and push `a + b`
resp. `a - b`; any other token is pushed through `atol`. -/
def processToken (s : CState) (tok : List Nat) : Option CState :=
  if strcmp tok plusTok = 0 then
    (Pop s).bind fun bs => (Pop bs.2).bind fun as => Push (as.1 + bs.1) as.2
  else if strcmp tok minusTok = 0 then
    (Pop s).bind fun bs => (Pop bs.2).bind fun as => Push (as.1 - bs.1) as.2
  else
    Push (atol tok) s

/-- The loop of `main` from an arbitrary state. -/
def runFrom (s : CState) : List (List Nat) → Option CState
  | [] => some s
  | t :: ts =>
    match processToken s t with
    | none => none
    | some s1 => runFrom s1 ts

/-- The loop of `main` over `argv[1..]`, from the initial state. -/
def runTokens (toks : List (List Nat)) : Option CState :=
  runFrom initState toks

/-- `static_cast<int>` of a `long` on the x86-64 target: two's-complement
truncation of the value modulo 2^32 into `[-2^31, 2^31)`. -/
def toInt32 (v : Int) : Int :=
  if v % 4294967296 < 2147483648 then v % 4294967296 else v % 4294967296 - 4294967296

/-- Embedding of `main`: run the loop, then `return 0` if `stack_ptr < 0`,
else `return static_cast<int>(Pop())`. -/
def rpnMain (toks : List (List Nat)) : Option Int :=
  (runTokens toks).bind fun s =>
    if s.sp < 0 then some 0
    else (Pop s).map fun vs => toInt32 vs.1

/-- A token whose characters are all ASCII decimal digits. -/
def DigitTok (t : List Nat) : Prop := ∀ c ∈ t, 48 ≤ c ∧ c ≤ 57

instance (t : List Nat) : Decidable (DigitTok t) :=
  inferInstanceAs (Decidable (∀ c ∈ t, 48 ≤ c ∧ c ≤ 57))

/-- Specification-side value of a digit string: the nonnegative integer the
token denotes in base 10, via Mathlib's positional `Nat.ofDigits`
(least-significant digit first, hence the `reverse`). -/
def decVal (t : List Nat) : Nat :=
  Nat.ofDigits 10 ((t.map (fun c => c - 48)).reverse)

/-- Pushing a list of values in order, as `main` does for operand tokens. -/
def pushAll : List Int → CState → Option CState
  | [], s => some s
  | v :: vs, s => (Push v s).bind fun s1 => pushAll vs s1

/-- Popping `n` times, collecting the values in pop order. -/
def popAll : Nat → CState → Option (List Int × CState)
  | 0, s => some ([], s)
  | n + 1, s =>
    (Pop s).bind fun vs => (popAll n vs.2).map fun p => (vs.1 :: p.1, p.2)

/-- The state invariant maintained by every in-bounds run. -/
def GoodState (s : CState) : Prop := -1 ≤ s.sp ∧ s.sp ≤ 99 ∧ s.mem.length = 100

theorem readCell_set_self {m : List Int} {i : Int} (v : Int) (h0 : 0 ≤ i) (h1 : i < 100)
    (hm : m.length = 100) : readCell (m.set i.toNat v) i = some v := by
  unfold readCell
  rw [if_pos ⟨h0, h1⟩, List.getD_eq_getElem?_getD, List.getElem?_set_eq_of_lt]
  · rfl
  · omega

theorem readCell_set_ne {m : List Int} {i j : Int} (v : Int) (hj0 : 0 ≤ j) (hne : i ≠ j) :
    readCell (m.set j.toNat v) i = readCell m i := by
  unfold readCell
  split
  · next h =>
    rw [List.getD_eq_getElem?_getD, List.getD_eq_getElem?_getD, List.getElem?_set_ne]
    omega
  · rfl

theorem digitTok_not_op {t : List Nat} (h : DigitTok t) :
    strcmp t plusTok ≠ 0 ∧ strcmp t minusTok ≠ 0 := by
  cases t with
  | nil => exact ⟨by decide, by decide⟩
  | cons c cs =>
    have hc := h c (List.mem_cons_self c cs)
    constructor
    · show strcmp (c :: cs) (43 :: []) ≠ 0
      unfold strcmp
      rw [if_neg (by omega)]
      omega
    · show strcmp (c :: cs) (45 :: []) ≠ 0
      unfold strcmp
      rw [if_neg (by omega)]
      omega

theorem processToken_digit (s : CState) {t : List Nat} (h : DigitTok t) :
    processToken s t = Push (atol t) s := by
  have h2 := digitTok_not_op h
  unfold processToken
  rw [if_neg h2.1, if_neg h2.2]

theorem Push_eq_some {v : Int} {s s' : CState} (hp : Push v s = some s') :
    0 ≤ s.sp + 1 ∧ s.sp + 1 < 100 ∧ s' = ⟨s.sp + 1, s.mem.set (s.sp + 1).toNat v⟩ := by
  unfold Push writeCell at hp
  split at hp
  · next hb =>
    exact ⟨hb.1, hb.2, (Option.some_inj.mp hp).symm⟩
  · exact Option.noConfusion hp

theorem Pop_eq_some {s : CState} {v : Int} {s' : CState} (hp : Pop s = some (v, s')) :
    0 ≤ s.sp ∧ s.sp < 100 ∧ readCell s.mem s.sp = some v ∧ s' = ⟨s.sp - 1, s.mem⟩ := by
  unfold Pop at hp
  unfold readCell at hp ⊢
  split at hp
  · next hb =>
    rw [if_pos hb]
    have hp2 : (s.mem.getD s.sp.toNat 0, (⟨s.sp - 1, s.mem⟩ : CState)) = (v, s') :=
      Option.some_inj.mp hp
    obtain ⟨h1, h2⟩ := Prod.mk.injEq .. ▸ hp2
    exact ⟨hb.1, hb.2, by rw [h1], h2.symm⟩
  · exact Option.noConfusion hp

theorem opStep_good {s s' : CState} {f : Int → Int → Int} (hg : GoodState s)
    (hp : ((Pop s).bind fun bs => (Pop bs.2).bind fun as => Push (f as.1 bs.1) as.2)
      = some s') :
    GoodState s' := by
  obtain ⟨hg1, hg2, hg3⟩ := hg
  rcases Option.bind_eq_some.mp hp with ⟨⟨bv, bs⟩, hb1, hp2⟩
  rcases Option.bind_eq_some.mp hp2 with ⟨⟨av, as⟩, ha1, hp3⟩
  obtain ⟨hb01, hb02, _, hb2⟩ := Pop_eq_some hb1
  subst hb2
  obtain ⟨ha01, ha02, _, ha2⟩ := Pop_eq_some ha1
  subst ha2
  obtain ⟨hq1, hq2, hq3⟩ := Push_eq_some hp3
  subst hq3
  refine ⟨by simp; omega, by simp; omega, by simp [List.length_set, hg3]⟩

theorem processToken_good {s s' : CState} {t : List Nat} (hg : GoodState s)
    (hp : processToken s t = some s') : GoodState s' := by
  unfold processToken at hp
  split at hp
  · exact opStep_good hg hp
  · split at hp
    · exact opStep_good hg hp
    · obtain ⟨hq1, hq2, hq3⟩ := Push_eq_some hp
      subst hq3
      obtain ⟨hg1, hg2, hg3⟩ := hg
      exact ⟨by simp; omega, by simp; omega, by simp [List.length_set, hg3]⟩

theorem runFrom_good : ∀ (ts : List (List Nat)) {s s' : CState}, GoodState s →
    runFrom s ts = some s' → GoodState s' := by
  intro ts
  induction ts with
  | nil => intro s s' hg h; unfold runFrom at h; cases h; exact hg
  | cons t ts ih =>
    intro s s' hg h
    unfold runFrom at h
    split at h
    · exact absurd h (by simp)
    · next s1 hs1 => exact ih (processToken_good hg hs1) h

theorem goodState_init : GoodState initState := by
  refine ⟨by decide, by decide, by decide⟩

theorem popAll_add (m n : Nat) (s : CState) :
    popAll (m + n) s = (popAll m s).bind fun p =>
      (popAll n p.2).map fun q => (p.1 ++ q.1, q.2) := by
  induction m generalizing s with
  | zero =>
    rw [Nat.zero_add]
    cases h : popAll n s <;> simp [popAll, h]
  | succ m ih =>
    rw [show m + 1 + n = (m + n) + 1 from by omega]
    simp only [popAll, ih]
    cases hp : Pop s with
    | none => rfl
    | some vs =>
      simp only [Option.some_bind]
      cases hq : popAll m vs.2 with
      | none => rfl
      | some p =>
        simp only [Option.some_bind, Option.map_some', Option.map_none']
        cases hr : popAll n p.2 <;> simp

theorem lifo_aux : ∀ (vs : List Int) (s : CState), s.mem.length = 100 → -1 ≤ s.sp →
    s.sp + vs.length ≤ 99 →
    ∃ m : List Int, pushAll vs s = some ⟨s.sp + vs.length, m⟩ ∧ m.length = 100 ∧
      (∀ i : Int, i ≤ s.sp → readCell m i = readCell s.mem i) ∧
      (∀ d : Int, vs ≠ [] → readCell m (s.sp + vs.length) = some (vs.getLastD d)) ∧
      popAll vs.length ⟨s.sp + vs.length, m⟩ = some (vs.reverse, ⟨s.sp, m⟩) := by
  intro vs
  induction vs with
  | nil =>
    intro s hm hsp hcap
    refine ⟨s.mem, ?_, hm, fun i _ => rfl, fun d h => absurd rfl h, ?_⟩
    · simp [pushAll]
    · simp [popAll]
  | cons w t ih =>
    intro s hm hsp hcap
    simp only [List.length_cons] at hcap ⊢
    push_cast at hcap ⊢
    have hb : 0 ≤ s.sp + 1 ∧ s.sp + 1 < 100 := by omega
    have hPush : Push w s = some ⟨s.sp + 1, s.mem.set (s.sp + 1).toNat w⟩ := by
      unfold Push writeCell
      rw [if_pos hb]
      rfl
    obtain ⟨m, hpush, hmlen, hpres, hlast, hpop⟩ :=
      ih ⟨s.sp + 1, s.mem.set (s.sp + 1).toNat w⟩
        (by simp [List.length_set, hm]) (show -1 ≤ s.sp + 1 by omega)
        (show s.sp + 1 + (t.length : Int) ≤ 99 by omega)
    have hcell : readCell m (s.sp + 1) = some w := by
      rw [hpres (s.sp + 1) (show s.sp + 1 ≤ s.sp + 1 from le_refl _)]
      exact readCell_set_self w hb.1 hb.2 hm
    refine ⟨m, ?_, hmlen, ?_, ?_, ?_⟩
    · show (Push w s).bind (pushAll t) = _
      rw [hPush, Option.some_bind]
      rw [show s.sp + ((t.length : Int) + 1) = (s.sp + 1) + (t.length : Int) from by ring]
      exact hpush
    · intro i hi
      rw [hpres i (show i ≤ s.sp + 1 by omega)]
      exact readCell_set_ne w hb.1 (by omega)
    · intro d _
      rw [List.getLastD_cons]
      by_cases ht : t = []
      · subst ht
        have hm1 : some (⟨s.sp + 1, s.mem.set (s.sp + 1).toNat w⟩ : CState)
            = some (⟨s.sp + 1 + ((0 : Nat) : Int), m⟩ : CState) := by
          simpa [pushAll] using hpush
        have hmm : m = s.mem.set (s.sp + 1).toNat w := by
          have h2 := Option.some_inj.mp hm1
          exact (congrArg CState.mem h2).symm
        subst hmm
        have harith : s.sp + ((List.length ([] : List Int) : Int) + 1) = s.sp + 1 := by
          simp
        rw [harith, List.getLastD_nil]
        exact readCell_set_self w hb.1 hb.2 hm
      · rw [show s.sp + ((t.length : Int) + 1) = (s.sp + 1) + (t.length : Int) from by ring]
        exact hlast w ht
    · rw [show ((t.length : Int) + 1) = ((t.length + 1 : Nat) : Int) from by push_cast; ring]
      rw [popAll_add t.length 1]
      rw [show s.sp + ((t.length + 1 : Nat) : Int) = (s.sp + 1) + (t.length : Int) from by
        push_cast; ring]
      rw [hpop, Option.some_bind]
      have hPop1 : popAll 1 (⟨s.sp + 1, m⟩ : CState) = some ([w], ⟨s.sp, m⟩) := by
        simp only [popAll, Pop, hcell, Option.map_some', Option.some_bind]
        norm_num
      rw [hPop1]
      simp

theorem atol_loop : ∀ (t : List Nat) (a : Int), (∀ c ∈ t, 48 ≤ c ∧ c ≤ 57) →
    t.foldl (fun (v : Int) (c : Nat) => v * 10 + (c : Int) - 48) a
      = a * 10 ^ t.length
        + ((Nat.ofDigits 10 ((t.map (fun c => c - 48)).reverse) : Nat) : Int) := by
  intro t
  induction t with
  | nil => intro a h; simp [Nat.ofDigits_nil]
  | cons c cs ih =>
    intro a h
    have hc := h c (List.mem_cons_self c cs)
    rw [List.foldl_cons, ih _ (fun u hu => h u (List.mem_cons_of_mem c hu))]
    simp only [List.map_cons, List.reverse_cons, List.length_cons]
    rw [Nat.ofDigits_append, Nat.ofDigits_singleton]
    rw [Nat.cast_add, Nat.cast_mul, Nat.cast_pow]
    rw [show ((c - 48 : Nat) : Int) = (c : Int) - 48 from by omega]
    simp only [List.length_reverse, List.length_map, Nat.cast_ofNat]
    ring

theorem atol_digit {t : List Nat} (h : DigitTok t) : atol t = (decVal t : Int) := by
  unfold atol decVal
  rw [atol_loop t 0 h]
  ring

theorem runFrom_cons_some {s s1 : CState} (t : List Nat) (ts : List (List Nat))
    (h : processToken s t = some s1) : runFrom s (t :: ts) = runFrom s1 ts := by
  show (match processToken s t with
    | none => none
    | some s2 => runFrom s2 ts) = runFrom s1 ts
  rw [h]

theorem runFrom_digits : ∀ (ts : List (List Nat)) (s : CState), (∀ t ∈ ts, DigitTok t) →
    runFrom s ts = pushAll (ts.map atol) s := by
  intro ts
  induction ts with
  | nil => intro s _; rfl
  | cons t ts ih =>
    intro s h
    show (match processToken s t with
      | none => none
      | some s1 => runFrom s1 ts) = _
    rw [processToken_digit s (h t (List.mem_cons_self t ts))]
    rw [List.map_cons]
    show _ = (Push (atol t) s).bind fun s1 => pushAll (ts.map atol) s1
    cases hp : Push (atol t) s with
    | none => rfl
    | some s1 =>
      rw [Option.some_bind]
      exact ih s1 (fun u hu => h u (List.mem_cons_of_mem t hu))

theorem getLastD_irrel {α : Type} {t : List α} (h : t ≠ []) (d1 d2 : α) :
    t.getLastD d1 = t.getLastD d2 := by
  cases t with
  | nil => exact absurd rfl h
  | cons a l => rw [List.getLastD_cons, List.getLastD_cons]

theorem getLastD_mem : ∀ (ts : List (List Nat)), ts ≠ [] → ts.getLastD [] ∈ ts := by
  intro ts
  induction ts with
  | nil => intro h; exact absurd rfl h
  | cons t ts ih =>
    intro _
    rw [List.getLastD_cons]
    by_cases h2 : ts = []
    · subst h2
      exact List.mem_cons_self t []
    · rw [getLastD_irrel h2 t []]
      exact List.mem_cons_of_mem t (ih h2)

theorem getLastD_map_atol : ∀ (ts : List (List Nat)) (t0 : List Nat),
    (ts.map atol).getLastD (atol t0) = atol (ts.getLastD t0) := by
  intro ts
  induction ts with
  | nil => intro t0; rfl
  | cons t ts ih =>
    intro t0
    rw [List.map_cons, List.getLastD_cons, List.getLastD_cons, ih t]

theorem run_two_op (x y op : List Nat) (f : Int → Int → Int) (hx : DigitTok x) (hy : DigitTok y)
    (hop : processToken ⟨1, ((List.replicate 100 0).set 0 (atol x)).set 1 (atol y)⟩ op
      = some ⟨0, (((List.replicate 100 0).set 0 (atol x)).set 1
          (atol y)).set 0 (f (atol x) (atol y))⟩) :
    runTokens [x, y, op]
      = some ⟨0, (((List.replicate 100 0).set 0 (atol x)).set 1
          (atol y)).set 0 (f (atol x) (atol y))⟩ := by
  unfold runTokens
  rw [runFrom_cons_some x [y, op]
    (show processToken initState x = some ⟨0, (List.replicate 100 0).set 0 (atol x)⟩ by
      rw [processToken_digit _ hx]; rfl)]
  rw [runFrom_cons_some y [op]
    (show processToken ⟨0, (List.replicate 100 0).set 0 (atol x)⟩ y
        = some ⟨1, ((List.replicate 100 0).set 0 (atol x)).set 1 (atol y)⟩ by
      rw [processToken_digit _ hy]; rfl)]
  rw [runFrom_cons_some op [] hop]
  rfl

/-- Claim C1: on an operator token `main` pops `b` (the newer value), then
`a` (the older value), and pushes `a + b` for `"+"` and `a - b` for `"-"`;
hence for digit tokens `x`, `y` the run on `[x, y, "-"]` leaves
`atol x - atol y` (the first-pushed operand is the minuend) on the stack
and returns its 32-bit truncation — `x - y`, never `y - x`. -/
theorem op_order (x y : List Nat) (hx : DigitTok x) (hy : DigitTok y) :
    (runTokens [x, y, minusTok]
        = some ⟨0, (((List.replicate 100 0).set 0 (atol x)).set 1
            (atol y)).set 0 (atol x - atol y)⟩
      ∧ rpnMain [x, y, minusTok] = some (toInt32 (atol x - atol y)))
    ∧ (runTokens [x, y, plusTok]
        = some ⟨0, (((List.replicate 100 0).set 0 (atol x)).set 1
            (atol y)).set 0 (atol x + atol y)⟩
      ∧ rpnMain [x, y, plusTok] = some (toInt32 (atol x + atol y))) := by
  have hm := run_two_op x y minusTok (fun a b => a - b) hx hy rfl
  have hp := run_two_op x y plusTok (fun a b => a + b) hx hy rfl
  refine ⟨⟨hm, ?_⟩, ⟨hp, ?_⟩⟩
  · unfold rpnMain
    rw [hm]
    rfl
  · unfold rpnMain
    rw [hp]
    rfl

/-- Claim C1 witness: `["10","3","-"]` gives `7`, `["3","10","-"]` gives
`-7` (push order preserved), and `["10","3","+"]` gives `13`. -/
theorem op_order_witness :
    DigitTok [49, 48] ∧ DigitTok [51] ∧
      rpnMain [[49, 48], [51], minusTok] = some 7 ∧
      rpnMain [[51], [49, 48], minusTok] = some (-7) ∧
      rpnMain [[49, 48], [51], plusTok] = some 13 := by
  have h1 := op_order [49, 48] [51] (by decide) (by decide)
  have h2 := op_order [51] [49, 48] (by decide) (by decide)
  refine ⟨by decide, by decide, ?_, ?_, ?_⟩
  · have h := h1.1.2
    rw [show toInt32 (atol [49, 48] - atol [51]) = 7 from by decide] at h
    exact h
  · have h := h2.1.2
    rw [show toInt32 (atol [51] - atol [49, 48]) = -7 from by decide] at h
    exact h
  · have h := h1.2.2
    rw [show toInt32 (atol [49, 48] + atol [51]) = 13 from by decide] at h
    exact h

/-- Claim C2 evidence: on input `["+"]` the code reads `stack[-1]`, an
out-of-bounds access (flagged `none` by the embedding); no `StackUnderflow`
error value is ever produced — the run is undefined behaviour, not an
explicit abort. -/
theorem underflow_is_ub :
    Pop initState = none ∧ processToken initState plusTok = none ∧
      rpnMain [plusTok] = none := by
  refine ⟨by decide, by decide, by decide⟩

/-- Claim C3 evidence: the token `"3x"` (codes `[51, 120]`) is silently fed
to `atol`, which accumulates `102`, and `main` returns `102`; no
`MalformedOperand` rejection exists in the code. -/
theorem malformed_is_parsed :
    atol [51, 120] = 102 ∧ rpnMain [[51, 120]] = some 102 := by
  refine ⟨by decide, by decide⟩

/-- Claim C4 evidence: 100 pushes of `"1"` succeed and leave
`stack_ptr = 99`, but the 101st push writes `stack[100]`, out of bounds
(flagged `none`); no `StackOverflow` error value is ever produced. -/
theorem overflow_is_ub :
    (∃ s : CState, runTokens (List.replicate 100 [49]) = some s ∧ s.sp = 99 ∧
       processToken s [49] = none) ∧
    rpnMain (List.replicate 100 [49]) = some 1 ∧
    rpnMain (List.replicate 101 [49]) = none := by
  refine ⟨⟨⟨99, List.replicate 100 1⟩, by decide, by decide, by decide⟩, by decide, by decide⟩

/-- Claim C5: on a token of ASCII decimal digits, `atol` returns exactly
the nonnegative integer the token denotes in base 10 (`decVal`, defined by
positional value, so leading zeros are accepted). -/
theorem number_parser_correct (t : List Nat) (h : DigitTok t) :
    atol t = ((decVal t : Nat) : Int) ∧ 0 ≤ atol t := by
  have he := atol_digit h
  exact ⟨he, by rw [he]; exact Int.natCast_nonneg _⟩

/-- Claim C5 witness: `"007"` parses to `7`; leading zeros accepted. -/
theorem number_parser_witness :
    DigitTok [48, 48, 55] ∧ atol [48, 48, 55] = ((decVal [48, 48, 55] : Nat) : Int)
      ∧ 0 ≤ atol [48, 48, 55] ∧ decVal [48, 48, 55] = 7 :=
  ⟨by decide, (number_parser_correct _ (by decide)).1,
    (number_parser_correct _ (by decide)).2, by decide⟩

/-- Claim C6 (amended): if the loop completes with a non-empty stack, the
external result is the 32-bit truncation of the stack top, popped once;
the values below the top are discarded without any error. -/
theorem result_top_trunc (toks : List (List Nat)) (s : CState)
    (h : runTokens toks = some s) (h0 : 0 ≤ s.sp) :
    ∃ v : Int, readCell s.mem s.sp = some v ∧ rpnMain toks = some (toInt32 v) := by
  obtain ⟨hg1, hg2, hg3⟩ := runFrom_good toks goodState_init h
  have hr : readCell s.mem s.sp = some (s.mem.getD s.sp.toNat 0) := by
    unfold readCell
    rw [if_pos ⟨h0, by omega⟩]
  refine ⟨_, hr, ?_⟩
  unfold rpnMain
  rw [h, Option.some_bind, if_neg (not_lt.mpr h0)]
  unfold Pop
  rw [hr]
  rfl

/-- Claim C6 counterexample to the unamended claim: on `["4294967303"]` the
stack top is `4294967303` but the external result is `7`, not the top
itself — `static_cast<int>` truncates. -/
theorem result_top_cex :
    runTokens [[52, 50, 57, 52, 57, 54, 55, 51, 48, 51]]
      = some ⟨0, (List.replicate 100 0).set 0 4294967303⟩ ∧
    readCell ((List.replicate 100 0).set 0 4294967303) 0 = some 4294967303 ∧
    rpnMain [[52, 50, 57, 52, 57, 54, 55, 51, 48, 51]] = some 7 ∧
    (7 : Int) ≠ 4294967303 := by
  refine ⟨by decide, by decide, by decide, by decide⟩

/-- Claim C6 witness: `["3","5"]` leaves `5` on top of `3`; the result is
`5` and the leftover `3` is discarded without error. -/
theorem result_top_witness :
    runTokens [[51], [53]] = some ⟨1, ((List.replicate 100 0).set 0 3).set 1 5⟩ ∧
    (0 : Int) ≤ (1 : Int) ∧
    (∃ v : Int, readCell (((List.replicate 100 0).set 0 3).set 1 5) 1 = some v ∧
      rpnMain [[51], [53]] = some (toInt32 v)) := by
  refine ⟨by decide, by decide, ?_⟩
  exact result_top_trunc [[51], [53]] ⟨1, ((List.replicate 100 0).set 0 3).set 1 5⟩
    (by decide) (by decide)

/-- Claim C7 (amended): a non-empty all-operand digit input of at most 100
tokens succeeds, and the result is the 32-bit truncation of the value of
the last token. -/
theorem all_operands_last (ts : List (List Nat)) (h0 : ts ≠ []) (hd : ∀ t ∈ ts, DigitTok t)
    (hc : ts.length ≤ 100) :
    rpnMain ts = some (toInt32 (decVal (ts.getLastD []))) := by
  obtain ⟨m, hpush, hmlen, hpres, hlast, hpop⟩ :=
    lifo_aux (ts.map atol) initState (by decide) (by decide)
      (by simp [initState, List.length_map]; omega)
  have hrun : runTokens ts = some ⟨initState.sp + ((ts.map atol).length : Int), m⟩ := by
    unfold runTokens
    rw [runFrom_digits ts initState hd]
    exact hpush
  have hlen1 : 1 ≤ ts.length := List.length_pos.mpr h0
  have hsp : ¬ (initState.sp + ((ts.map atol).length : Int) < 0) := by
    have hL : (1 : Int) ≤ ((ts.map atol).length : Int) := by
      rw [List.length_map]
      exact_mod_cast hlen1
    show ¬ (-1 + ((ts.map atol).length : Int) < 0)
    omega
  have hmem : ts.getLastD [] ∈ ts := getLastD_mem ts h0
  have htop : readCell m (initState.sp + ((ts.map atol).length : Int))
      = some ((decVal (ts.getLastD []) : Nat) : Int) := by
    rw [hlast (atol []) (by simpa using h0)]
    rw [getLastD_map_atol ts []]
    rw [atol_digit (hd _ hmem)]
  unfold rpnMain
  rw [hrun, Option.some_bind, if_neg hsp]
  unfold Pop
  dsimp only
  rw [htop]
  rfl

/-- Claim C7 counterexample to the unamended claim: 101 operand tokens do
not evaluate successfully at all (out-of-bounds push), and the one-token
input `["4294967296"]` succeeds but returns `0`, not the value
`4294967296` of its last token. -/
theorem all_operands_cex :
    rpnMain (List.replicate 101 [49]) = none ∧
    rpnMain [[52, 50, 57, 52, 57, 54, 55, 50, 57, 54]] = some 0 ∧
    (0 : Int) ≠ 4294967296 := by
  refine ⟨by decide, by decide, by decide⟩

/-- Claim C7 witness: `["3","5","9"]` gives `9`, the value of the last
token. -/
theorem all_operands_witness :
    rpnMain [[51], [53], [57]]
      = some (toInt32 (decVal (([[51], [53], [57]] : List (List Nat)).getLastD []))) ∧
    rpnMain [[51], [53], [57]] = some 9 := by
  have h := all_operands_last [[51], [53], [57]] (by decide) (by decide) (by decide)
  exact ⟨h, by decide⟩

/-- Claim C8: on the empty token sequence the loop leaves the initial state
unchanged (`stack_ptr = -1`, stack empty) and `main` returns 0. -/
theorem empty_input_zero :
    runTokens [] = some initState ∧ initState.sp = -1 ∧
      rpnMain [] = some 0 := by
  refine ⟨rfl, rfl, by decide⟩

/-- Claim C9: pushing `v1..vn` (`1 ≤ n ≤ 100`) onto the empty stack and
popping `n` times yields `vn, …, v1` — the reverse order — and leaves the
stack pointer back at `-1` (empty). -/
theorem stack_lifo (vs : List Int) (h1 : 1 ≤ vs.length) (h2 : vs.length ≤ 100) :
    ∃ s : CState, pushAll vs initState = some s ∧ s.sp = (vs.length : Int) - 1 ∧
      popAll vs.length s = some (vs.reverse, ⟨-1, s.mem⟩) := by
  obtain ⟨m, hpush, hmlen, hpres, hlast, hpop⟩ :=
    lifo_aux vs initState (by decide) (by decide) (by simp [initState]; omega)
  refine ⟨⟨initState.sp + (vs.length : Int), m⟩, hpush, ?_, ?_⟩
  · show initState.sp + (vs.length : Int) = (vs.length : Int) - 1
    simp [initState]
    omega
  · exact hpop

/-- Claim C9 witness: pushing `1, 2, 3` and popping three times yields
`3, 2, 1` and empties the stack. -/
theorem stack_lifo_witness :
    (1 ≤ ([1, 2, 3] : List Int).length ∧ ([1, 2, 3] : List Int).length ≤ 100) ∧
    ∃ s : CState, pushAll [1, 2, 3] initState = some s ∧ s.sp = 2 ∧
      popAll 3 s = some ([3, 2, 1], ⟨-1, s.mem⟩) := by
  obtain ⟨s, hs1, hs2, hs3⟩ := stack_lifo [1, 2, 3] (by decide) (by decide)
  exact ⟨⟨by decide, by decide⟩, ⟨s, hs1, by simpa using hs2, by simpa using hs3⟩⟩

/-- Claim C10: the external result is the internal `long` stack top reduced
modulo 2^32 into the signed 32-bit range `[-2^31, 2^31)` by `toInt32`
(two's-complement `static_cast<int>`); out-of-range values wrap, they do
not saturate or signal. -/
theorem result_wraps (toks : List (List Nat)) (s : CState) (v : Int)
    (h : runTokens toks = some s) (h0 : 0 ≤ s.sp) (hv : readCell s.mem s.sp = some v) :
    rpnMain toks = some (toInt32 v) ∧ toInt32 v % 4294967296 = v % 4294967296 ∧
      -2147483648 ≤ toInt32 v ∧ toInt32 v < 2147483648 := by
  have h1 : 0 ≤ v % 4294967296 := Int.emod_nonneg v (by norm_num)
  have h2 : v % 4294967296 < 4294967296 := Int.emod_lt_of_pos v (by norm_num)
  refine ⟨?_, ?_, ?_, ?_⟩
  · unfold rpnMain
    rw [h, Option.some_bind, if_neg (not_lt.mpr h0)]
    unfold Pop
    rw [hv]
    rfl
  · unfold toInt32
    split <;> omega
  · unfold toInt32
    split <;> omega
  · unfold toInt32
    split <;> omega

/-- Claim C10 witness: the internal top `4294967298 = 2^32 + 2` is
delivered externally as `2` — wrapped, not saturated. -/
theorem result_wraps_witness :
    runTokens [[52, 50, 57, 52, 57, 54, 55, 50, 57, 56]]
      = some ⟨0, (List.replicate 100 0).set 0 4294967298⟩ ∧
    readCell ((List.replicate 100 0).set 0 4294967298) 0 = some 4294967298 ∧
    rpnMain [[52, 50, 57, 52, 57, 54, 55, 50, 57, 56]] = some (toInt32 4294967298) ∧
    toInt32 4294967298 = 2 := by
  have h := result_wraps [[52, 50, 57, 52, 57, 54, 55, 50, 57, 56]]
    ⟨0, (List.replicate 100 0).set 0 4294967298⟩ 4294967298 (by decide) (by decide) (by decide)
  exact ⟨by decide, by decide, h.1, by decide⟩
